import Mathlib

/-!
Verification of the budget-micro-saas import/normalization pipeline and the
dashboard aggregation engine, as a shallow embedding in Lean.

Conventions of the embedding:
* JavaScript strings are Lean `String`s; most character-level work is done on
  `List Char`.  JavaScript's `\s` whitespace class is modelled by its ASCII
  members (space, tab, newline, carriage return, vertical tab, form feed),
  which are the only whitespace characters bank exports contain.
* JavaScript numbers are modelled as exact rationals.  `Number(string)` is
  modelled for decimal numerals; `NaN` and `Infinity` are both collapsed to
  `none`, matching every use site, which immediately maps non-finite values
  to `null` via `Number.isFinite`.
* `Date` values are modelled by their millisecond timestamp as an `Int`
  (`getTime()`), with the server clock in UTC, so calendar-day arithmetic is
  arithmetic on multiples of 86400000 ms and a calendar day is the floor
  division of the timestamp by 86400000.
* JavaScript's `Array.prototype.sort` (stable since ES2019) and `Map`
  iteration (insertion order) are modelled by an explicit stable insertion
  sort `stableSort` and by first-occurrence key lists (`dedupFirst`).
-/

namespace Budget

/-- ASCII members of JavaScript's `\s` class, used by `trim`, `\s+` and the
blank-line checks. -/
def isWsp (c : Char) : Bool :=
  c = ' ' || c = '\t' || c = '\n' || c = '\r' || c.toNat = 11 || c.toNat = 12

/-- `String.prototype.trim()` on a character list. -/
def trimL (l : List Char) : List Char :=
  ((l.dropWhile isWsp).reverse.dropWhile isWsp).reverse

/-- `String.prototype.trim()`. -/
def jsTrim (s : String) : String :=
  String.mk (trimL s.toList)

/-- Worker for `replace(/\s+/g, " ")`: the flag records whether the previous
character was whitespace (so a run contributes a single space). -/
def collapseWsAux : Bool → List Char → List Char
  | _, [] => []
  | prevWs, c :: rest =>
    if isWsp c then
      if prevWs then collapseWsAux true rest
      else ' ' :: collapseWsAux true rest
    else c :: collapseWsAux false rest

/-- `replace(/\s+/g, " ")`: every maximal whitespace run becomes one space. -/
def collapseWsL (l : List Char) : List Char :=
  collapseWsAux false l

/-- `norm` of `app/api/import/route.ts`: lowercase, trim, collapse internal
whitespace (`toLowerCase().trim().replace(/\s+/g, " ")`).  `Char.toLower`
covers the ASCII range, which is all the header names use. -/
def norm (s : String) : String :=
  String.mk (collapseWsL (trimL (s.toList.map Char.toLower)))

/-- `detectDelimiter`: tab if the line has a tab, else comma if it has a
comma, else default to tab. -/
def detectDelimiter (line : String) : Char :=
  if line.toList.contains '\t' then '\t'
  else if line.toList.contains ',' then ','
  else '\t'

/-- Worker for `parseDelimitedLine`: `inQ` is the `inQuotes` flag and `cur`
the field being accumulated.  A `""` while inside quotes appends a literal
quote; any other quote toggles the flag; an unquoted delimiter closes the
field (fields are pushed trimmed, as in `out.push(cur.trim())`). -/
def parseDelimAux (delim : Char) : Bool → List Char → List Char → List (List Char)
  | _, cur, [] => [trimL cur]
  | true, cur, '"' :: '"' :: rest2 => parseDelimAux delim true (cur ++ ['"']) rest2
  | inQ, cur, '"' :: rest => parseDelimAux delim (!inQ) cur rest
  | inQ, cur, c :: rest =>
    if !inQ && c = delim then trimL cur :: parseDelimAux delim inQ [] rest
    else parseDelimAux delim inQ (cur ++ [c]) rest

/-- `parseDelimitedLine` of `app/api/import/route.ts`: split a line at the
delimiter, honouring double-quoted fields, with `""` inside quotes as an
escaped literal quote; every field is trimmed. -/
def parseDelimitedLine (line : String) (delim : Char) : List String :=
  (parseDelimAux delim false [] line.toList).map String.mk

/-- The four required header column names of `findHeader`. -/
def requiredCols : List String :=
  ["transaction type", "date posted", "transaction amount", "description"]

/-- Whether one line of the statement is the header `findHeader` is looking
for: non-blank after trimming, and its delimiter-split, normalized columns
contain all four required names. -/
def lineQualifies (l : String) : Bool :=
  let raw := jsTrim l
  raw ≠ "" &&
    requiredCols.all (fun r => ((parseDelimitedLine raw (detectDelimiter raw)).map norm).contains r)

/-- Worker for `findHeader`, carrying the absolute index of the head of the
remaining line list. -/
def findHeaderAux : Nat → List String → Option (Nat × Char × List String)
  | _, [] => none
  | i, l :: rest =>
    let raw := jsTrim l
    if raw = "" then findHeaderAux (i + 1) rest
    else
      let delim := detectDelimiter raw
      let cols := (parseDelimitedLine raw delim).map norm
      if requiredCols.all (fun r => cols.contains r) then some (i, delim, cols)
      else findHeaderAux (i + 1) rest

/-- `findHeader` of `app/api/import/route.ts` (identical in the staging-only
variant of the route): scan the lines in order, skip blank lines, and return
the zero-based index, detected delimiter and normalized columns of the first
line whose columns contain all four required names; `none` when no line
qualifies (the route then fails the whole request with a 400). -/
def findHeader (lines : List String) : Option (Nat × Char × List String) :=
  findHeaderAux 0 lines

/-! ### Date and amount normalization -/

/-- Split a character list at every occurrence of a separator character
(JavaScript `String.prototype.split` with a one-character separator). -/
def splitOnChar (c : Char) : List Char → List (List Char)
  | [] => [[]]
  | x :: rest =>
    if x = c then [] :: splitOnChar c rest
    else
      match splitOnChar c rest with
      | [] => [[x]]
      | p :: ps => (x :: p) :: ps

/-- `padStart(2, "0")` on a digit group of length 1 or 2. -/
def padTwo (l : List Char) : List Char :=
  if l.length < 2 then '0' :: l else l

/-- Whether a character list matches `^\d{4}-\d{2}-\d{2}$`. -/
def isIsoDateShape (s : List Char) : Bool :=
  match s with
  | [a, b, c, d, e, f, g, h, i, j] =>
    [a, b, c, d].all Char.isDigit && e = '-' && [f, g].all Char.isDigit &&
      h = '-' && [i, j].all Char.isDigit
  | _ => false

/-- Whether a split on `/` matches `^\d{1,2}\/\d{1,2}\/\d{4}$`, returning the
month, day and year digit groups. -/
def slashDateParts (s : List Char) : Option (List Char × List Char × List Char) :=
  match splitOnChar '/' s with
  | [mm, dd, yyyy] =>
    if 1 ≤ mm.length && mm.length ≤ 2 && mm.all Char.isDigit &&
        1 ≤ dd.length && dd.length ≤ 2 && dd.all Char.isDigit &&
        yyyy.length = 4 && yyyy.all Char.isDigit then
      some (mm, dd, yyyy)
    else none
  | _ => none

/-- `parseBmoDateToISO` of `app/api/import/route.ts`: trim; an 8-digit
`YYYYMMDD` is sliced into `YYYY-MM-DD`; a `YYYY-MM-DD` passes through; an
`M/D/YYYY` or `MM/DD/YYYY` is reassembled month-first with zero padding.  The
source's last resort, `new Date(s)` generic parsing, is environment- and
locale-dependent and is modelled as a parse failure (`none`); no claim
depends on that branch, and every structured bank-export format is covered
by the three patterns above. -/
def parseBmoDateToISO (dateRaw : String) : Option String :=
  let s := trimL dateRaw.toList
  if s = [] then none
  else if s.length = 8 && s.all Char.isDigit then
    some (String.mk (s.take 4 ++ '-' :: ((s.drop 4).take 2 ++ '-' :: s.drop 6)))
  else if isIsoDateShape s then some (String.mk s)
  else
    match slashDateParts s with
    | some (mm, dd, yyyy) =>
      some (String.mk (yyyy ++ '-' :: (padTwo mm ++ '-' :: padTwo dd)))
    | none => none

/-- Digit-group value (most significant first). -/
def digitsVal (l : List Char) : Nat :=
  l.foldl (fun a c => 10 * a + (c.toNat - 48)) 0

/-- Ten to an integer power, as a rational. -/
def pow10 (e : Int) : ℚ :=
  if 0 ≤ e then ((10 : ℚ) ^ e.toNat) else 1 / (10 : ℚ) ^ (-e).toNat

/-- A signed decimal digit group (the exponent of a numeral). -/
def parseSignedDigits : List Char → Option Int
  | '+' :: rest =>
    if rest ≠ [] && rest.all Char.isDigit then some (digitsVal rest) else none
  | '-' :: rest =>
    if rest ≠ [] && rest.all Char.isDigit then some (-(digitsVal rest : Int)) else none
  | rest =>
    if rest ≠ [] && rest.all Char.isDigit then some (digitsVal rest) else none

/-- The exponent part of a decimal numeral: empty means exponent 0, else
`e`/`E` followed by a signed digit group consuming the whole rest. -/
def parseExpPart : List Char → Option Int
  | [] => some 0
  | 'e' :: rest => parseSignedDigits rest
  | 'E' :: rest => parseSignedDigits rest
  | _ => none

/-- An unsigned decimal numeral `digits[.digits][(e|E)[sign]digits]` with at
least one digit, consuming the whole list. -/
def parseUnsignedNumeral (cs : List Char) : Option ℚ :=
  let ip := cs.takeWhile Char.isDigit
  let rest := cs.dropWhile Char.isDigit
  match rest with
  | '.' :: rest2 =>
    let fp := rest2.takeWhile Char.isDigit
    let rest3 := rest2.dropWhile Char.isDigit
    if ip.isEmpty && fp.isEmpty then none
    else
      (parseExpPart rest3).map
        (fun e => ((digitsVal ip : ℚ) + (digitsVal fp : ℚ) * pow10 (-(fp.length : Int))) * pow10 e)
  | _ =>
    if ip.isEmpty then none
    else (parseExpPart rest).map (fun e => (digitsVal ip : ℚ) * pow10 e)

/-- Model of JavaScript `Number(string)` restricted to the decimal numerals
a bank export can contain: surrounding whitespace is ignored, the empty (or
all-whitespace) string converts to 0, and an optional sign precedes an
unsigned numeral.  Strings JavaScript would turn into `NaN`, and the
`Infinity` spellings, are both `none`: every caller immediately maps
non-finite values to `null` through `Number.isFinite`, so the two cannot be
told apart downstream. -/
def jsNumber (cs : List Char) : Option ℚ :=
  match trimL cs with
  | [] => some 0
  | '+' :: rest => parseUnsignedNumeral rest
  | '-' :: rest => (parseUnsignedNumeral rest).map Neg.neg
  | t => parseUnsignedNumeral t

/-- `parseAmount` of `app/api/import/route.ts`: trim; the empty string is
`null`; otherwise strip every `$` and `,` and convert with `Number`,
returning `null` unless the result is finite. -/
def parseAmount (amountRaw : String) : Option ℚ :=
  let s := trimL amountRaw.toList
  if s = [] then none
  else jsNumber (s.filter (fun c => !(c = '$' || c = ',')))

/-! ### Payee cleanup and classification -/

/-- The characters after the first `]`, or `none` when no `]` occurs before
a line terminator (the lazy `.*?` of `\[.*?\]` cannot cross one). -/
def afterFirstClose : List Char → Option (List Char)
  | [] => none
  | ']' :: rest => some rest
  | c :: rest => if c = '\n' || c = '\r' then none else afterFirstClose rest

/-- `replace(/^\[.*?\]\s*/g, "")`: strip one leading bracketed tag and the
whitespace after it (the `^` anchor makes at most one replacement). -/
def stripLeadBracket (cs : List Char) : List Char :=
  match cs with
  | '[' :: rest =>
    match afterFirstClose rest with
    | some tail => tail.dropWhile isWsp
    | none => cs
  | _ => cs

/-- `cleanPayee` of `app/api/import/route.ts`: a blank description is
`"Unknown"`; otherwise collapse whitespace, strip one leading `[...]` tag,
trim, and truncate to 180 characters.  (Only a blank input maps to
`"Unknown"`: an input that is non-blank but empties out during cleanup, such
as a lone bracketed tag, yields the empty string.) -/
def cleanPayee (description : String) : String :=
  let s := trimL description.toList
  if s = [] then "Unknown"
  else String.mk ((trimL (stripLeadBracket (collapseWsL s))).take 180)

/-- `normPayee` of `app/api/import/route.ts`: lowercase, replace every
character outside `[a-z0-9 ]` by a space, collapse whitespace, trim,
truncate to 180 characters. -/
def normPayee (payee : String) : String :=
  String.mk
    ((trimL (collapseWsL
      ((payee.toList.map Char.toLower).map
        (fun c => if ('a' ≤ c && c ≤ 'z') || ('0' ≤ c && c ≤ '9') || c = ' ' then c else ' ')))).take 180)

/-- A row of the `payee_mapping` table: a substring `pattern`, an optional
`normalized` payee override (empty means none) and a `category`. -/
structure MappingRow where
  pattern : String
  normalized : String
  category : String
deriving DecidableEq, Repr

/-- `startsWith` on character lists. -/
def startsWithL : List Char → List Char → Bool
  | _, [] => true
  | [], _ :: _ => false
  | h :: hs, p :: ps => h = p && startsWithL hs ps

/-- JavaScript `String.prototype.includes`: `pat` occurs contiguously in the
haystack. -/
def containsSub (pat : List Char) : List Char → Bool
  | [] => startsWithL [] pat
  | c :: rest => startsWithL (c :: rest) pat || containsSub pat rest

/-- ASCII uppercase of a character list (`toUpperCase`). -/
def upperL (l : List Char) : List Char :=
  l.map Char.toUpper

/-- Whether one mapping matches a raw description inside `applyMapping`'s
loop: its uppercased, trimmed pattern is non-empty (`if (!pat) continue`)
and occurs in the uppercased description. -/
def matchesPat (description : String) (m : MappingRow) : Bool :=
  let pat := trimL (upperL m.pattern.toList)
  pat ≠ [] && containsSub pat (upperL description.toList)

/-- `applyMapping` of `app/api/import/route.ts`: try the mappings in their
given order; the first whose pattern matches case-insensitively supplies the
category (defaulted to `"Uncategorized"` when empty) and its `normalized`
field; no match yields `("Uncategorized", "")`. -/
def applyMapping (description : String) : List MappingRow → String × String
  | [] => ("Uncategorized", "")
  | m :: rest =>
    if matchesPat description m then
      ((if m.category = "" then "Uncategorized" else m.category), m.normalized)
    else applyMapping description rest

/-- The category and final clean payee the transform step assigns to a raw
description (`route.ts`, step 3 of the reprocessing `POST`): the mapping's
category (defaulted), and the mapping's `normalized` payee when non-empty,
else the generically cleaned description. -/
def classifyTx (rawDesc : String) (mappings : List MappingRow) : String × String :=
  let base := cleanPayee rawDesc
  let mapped := applyMapping rawDesc mappings
  ((if mapped.1 = "" then "Uncategorized" else mapped.1),
   (if mapped.2 = "" then base else mapped.2))

/-! ### Staging rows and the idempotent transform-and-commit step -/

/-- A row of the `staging_import` table as the transform step reads it back:
the database primary key `id` and the four raw columns.  The `processed`
flag only gates which rows are selected and is not needed here. -/
structure StagingRow where
  id : Nat
  date_raw : String
  transaction_type : String
  amount_raw : String
  description : String
deriving DecidableEq, Repr

/-- A row of the canonical `transactions` table as the transform step writes
it.  `date_parsed` and `amount_num` duplicate `date` and `amount` in the
source and are left out; the constant `is_transfer`/`is_savings`/
`likely_loc`/`notes`/`processed` columns are likewise omitted. -/
structure TxRecord where
  date : String
  transaction_type : String
  amount : ℚ
  description : String
  payee_clean : String
  payee_norm : String
  category : String
  source_staging_id : Nat
deriving DecidableEq, Repr

/-- Step 3 of the reprocessing `POST` of `app/api/import/route.ts` for one
staging row: `null` when the date or the amount fails to normalize,
otherwise the canonical transaction carrying the mapped category and payee
and the staging id as `source_staging_id`. -/
def transformRow (mappings : List MappingRow) (r : StagingRow) : Option TxRecord :=
  match parseBmoDateToISO r.date_raw, parseAmount r.amount_raw with
  | some iso, some amt =>
    some
      { date := iso
        transaction_type := r.transaction_type
        amount := amt
        description := r.description
        payee_clean := (classifyTx r.description mappings).2
        payee_norm := normPayee ((classifyTx r.description mappings).2)
        category := (classifyTx r.description mappings).1
        source_staging_id := r.id }
  | _, _ => none

/-- Steps 2-4 of the reprocessing `POST` on the transactions-table state:
delete every existing transaction whose `source_staging_id` lies in the
current staging batch, then insert the freshly transformed candidates
(rows failing date/amount normalization are dropped by `filterMap`). -/
def transformAndCommit (mappings : List MappingRow) (rows : List StagingRow)
    (state : List TxRecord) : List TxRecord :=
  let ids := rows.map (fun r => r.id)
  state.filter (fun t => !ids.contains t.source_staging_id)
    ++ rows.filterMap (transformRow mappings)

/-- A transformed candidate carries the id of the staging row it came from. -/
lemma transformRow_sid {m : List MappingRow} {r : StagingRow} {t : TxRecord}
    (h : transformRow m r = some t) : t.source_staging_id = r.id := by
  unfold transformRow at h
  split at h
  · cases h
    rfl
  · cases h

/-- No candidate of a batch whose rows all avoid an id matches that id. -/
lemma candidates_filter_nil (m : List MappingRow) (n : Nat) (rows : List StagingRow)
    (h : ∀ x ∈ rows, x.id ≠ n) :
    (rows.filterMap (transformRow m)).filter (fun t => t.source_staging_id = n) = [] := by
  rw [List.filter_eq_nil_iff]
  intro t ht
  obtain ⟨x, hx, hxt⟩ := List.mem_filterMap.mp ht
  simp [transformRow_sid hxt, h x hx]

/-- In a batch with pairwise-distinct staging ids, the candidates matching a
member row's id number exactly one when that row normalizes, zero when it
does not. -/
lemma count_in_candidates (m : List MappingRow) (r : StagingRow) :
    ∀ rows : List StagingRow, (rows.map (fun x => x.id)).Nodup → r ∈ rows →
      ((rows.filterMap (transformRow m)).filter
          (fun t => t.source_staging_id = r.id)).length
        = if (transformRow m r).isSome then 1 else 0 := by
  intro rows
  induction rows with
  | nil => simp
  | cons r' rest ih =>
    intro hnd hmem
    have hnd' : (rest.map (fun x => x.id)).Nodup := (List.nodup_cons.mp hnd).2
    have hnotin : r'.id ∉ rest.map (fun x => x.id) := (List.nodup_cons.mp hnd).1
    rcases List.mem_cons.mp hmem with hEq | hRest
    · subst hEq
      have hnone : ∀ x ∈ rest, x.id ≠ r.id := by
        intro x hx hc
        exact hnotin (hc ▸ List.mem_map_of_mem (fun y => y.id) hx)
      cases htr : transformRow m r with
      | none =>
        simp only [List.filterMap_cons, htr]
        rw [candidates_filter_nil m r.id rest hnone]
        simp
      | some tx =>
        simp only [List.filterMap_cons, htr]
        rw [List.filter_cons]
        rw [candidates_filter_nil m r.id rest hnone]
        simp [transformRow_sid htr]
    · have hne : r'.id ≠ r.id := by
        intro hc
        exact hnotin (hc ▸ List.mem_map_of_mem (fun y => y.id) hRest)
      cases htr : transformRow m r' with
      | none =>
        simp only [List.filterMap_cons, htr]
        exact ih hnd' hRest
      | some tx =>
        simp only [List.filterMap_cons, htr]
        rw [List.filter_cons]
        simp only [transformRow_sid htr, hne, decide_eq_true_eq, if_neg hne]
        exact ih hnd' hRest

/-- C1 (sentence as amended by nothing: the property as claimed).  After
`transformAndCommit`, the transactions state holds exactly one transaction
keyed to each staging row whose date and amount both normalize, none for a
row that fails normalization, and running the step again on the same batch
returns the state unchanged (so any number of reruns leaves the set of
transactions identical in count and content). -/
theorem transformAndCommit_exactly_one_and_idempotent
    (mappings : List MappingRow) (rows : List StagingRow) (state : List TxRecord)
    (hids : (rows.map (fun r => r.id)).Nodup) :
    (∀ r ∈ rows, (transformRow mappings r).isSome →
      ((transformAndCommit mappings rows state).filter
          (fun t => t.source_staging_id = r.id)).length = 1)
    ∧ (∀ r ∈ rows, transformRow mappings r = none →
      ((transformAndCommit mappings rows state).filter
          (fun t => t.source_staging_id = r.id)).length = 0)
    ∧ transformAndCommit mappings rows (transformAndCommit mappings rows state)
        = transformAndCommit mappings rows state := by
  have hdel : ∀ n : Nat, n ∈ rows.map (fun r => r.id) →
      (state.filter
          (fun t => !(rows.map (fun r => r.id)).contains t.source_staging_id)).filter
        (fun t => t.source_staging_id = n) = [] := by
    intro n hn
    rw [List.filter_eq_nil_iff]
    intro t ht hsid
    have hkeep := List.of_mem_filter ht
    rw [decide_eq_true_eq] at hsid
    rw [hsid] at hkeep
    have hc : (List.map (fun r => r.id) rows).contains n = true := by
      simpa using hn
    rw [hc] at hkeep
    exact absurd hkeep (by simp)
  refine ⟨?_, ?_, ?_⟩
  · intro r hr hsome
    unfold transformAndCommit
    rw [List.filter_append, hdel r.id (List.mem_map_of_mem (fun x => x.id) hr)]
    rw [List.nil_append, count_in_candidates mappings r rows hids hr]
    simp [hsome]
  · intro r hr hnone
    unfold transformAndCommit
    rw [List.filter_append, hdel r.id (List.mem_map_of_mem (fun x => x.id) hr)]
    rw [List.nil_append, count_in_candidates mappings r rows hids hr]
    simp [hnone]
  · simp only [transformAndCommit]
    have hcand : (rows.filterMap (transformRow mappings)).filter
        (fun t => !(rows.map (fun r => r.id)).contains t.source_staging_id) = [] := by
      rw [List.filter_eq_nil_iff]
      intro t ht
      obtain ⟨x, hx, hxt⟩ := List.mem_filterMap.mp ht
      simp [transformRow_sid hxt, List.mem_map_of_mem (fun y => y.id) hx]
    rw [List.filter_append, hcand, List.append_nil]
    congr 1
    rw [List.filter_filter]
    apply List.filter_congr
    intro t _
    exact Bool.and_self _

/-- Witness for C1 at a concrete batch: two staging rows with distinct ids,
the first normalizing, the second with an unparseable amount; the committed
state holds exactly one transaction for id 1 and none for id 2, and a rerun
is a fixed point. -/
theorem transformAndCommit_exactly_one_and_idempotent_witness :
    ((Budget.transformAndCommit []
        [⟨1, "20250711", "DEBIT", "-60.00", "COFFEE"⟩,
         ⟨2, "20250712", "DEBIT", "abc", "TEA"⟩] []).filter
      (fun t => t.source_staging_id = 1)).length = 1
    ∧ ((Budget.transformAndCommit []
        [⟨1, "20250711", "DEBIT", "-60.00", "COFFEE"⟩,
         ⟨2, "20250712", "DEBIT", "abc", "TEA"⟩] []).filter
      (fun t => t.source_staging_id = 2)).length = 0 := by
  have h := transformAndCommit_exactly_one_and_idempotent []
    [⟨1, "20250711", "DEBIT", "-60.00", "COFFEE"⟩,
     ⟨2, "20250712", "DEBIT", "abc", "TEA"⟩] [] (by decide)
  exact ⟨h.1 ⟨1, "20250711", "DEBIT", "-60.00", "COFFEE"⟩ (by decide) (by decide),
         h.2.1 ⟨2, "20250712", "DEBIT", "abc", "TEA"⟩ (by decide) (by decide)⟩

/-! ### A stable sort, modelling `Array.prototype.sort`

JavaScript's sort is stable (ES2019).  A call `list.sort(cmp)` is modelled
by `stableSort lt list` where `lt a b` means `cmp(a, b) < 0` (`a` must come
strictly before `b`): elements are inserted left to right, each new element
passing over exactly the earlier elements it must precede, so equal-ranked
elements keep their input order. -/

/-- Insert `x` before the first element it must strictly precede. -/
def stableInsert (lt : α → α → Bool) (x : α) : List α → List α
  | [] => [x]
  | y :: ys => if lt x y then x :: y :: ys else y :: stableInsert lt x ys

/-- Stable insertion sort: fold the input left to right into a sorted
accumulator. -/
def stableSort (lt : α → α → Bool) (l : List α) : List α :=
  l.foldl (fun acc x => stableInsert lt x acc) []

lemma stableInsert_perm (lt : α → α → Bool) (x : α) (l : List α) :
    (stableInsert lt x l).Perm (x :: l) := by
  induction l with
  | nil => rfl
  | cons y ys ih =>
    by_cases h : lt x y = true
    · simp [stableInsert, h]
    · simp only [stableInsert, h]
      rw [if_neg (by simp [h])]
      exact (ih.cons y).trans (List.Perm.swap x y ys)

lemma mem_stableInsert (lt : α → α → Bool) {x z : α} {l : List α} :
    z ∈ stableInsert lt x l ↔ z = x ∨ z ∈ l := by
  rw [(stableInsert_perm lt x l).mem_iff]
  simp

/-- Inserting splits the old list in place: the old elements keep their
relative order. -/
lemma stableInsert_decomp (lt : α → α → Bool) (x : α) (l : List α) :
    ∃ p q, l = p ++ q ∧ stableInsert lt x l = p ++ x :: q := by
  induction l with
  | nil => exact ⟨[], [], rfl, rfl⟩
  | cons y ys ih =>
    by_cases h : lt x y = true
    · exact ⟨[], y :: ys, rfl, by simp [stableInsert, h]⟩
    · obtain ⟨p, q, hl, hi⟩ := ih
      refine ⟨y :: p, q, by simp [hl], ?_⟩
      simp only [stableInsert, h]
      rw [if_neg (by simp [h]), hi]
      simp

lemma sublist_stableInsert (lt : α → α → Bool) (x : α) {u l : List α}
    (h : u.Sublist l) : u.Sublist (stableInsert lt x l) := by
  obtain ⟨p, q, hl, hi⟩ := stableInsert_decomp lt x l
  rw [hi]
  exact (hl ▸ h).trans (List.Sublist.append_left (List.sublist_cons_self x q) p)

/-- Sortedness invariant: no element strictly precedes an element placed
before it.  Preserved by insertion when `lt` is asymmetric and transitive. -/
lemma stableInsert_pairwise (lt : α → α → Bool)
    (hasym : ∀ a b, lt a b = true → lt b a = false)
    (htrans : ∀ a b c, lt a b = true → lt b c = true → lt a c = true)
    (x : α) {l : List α} (h : l.Pairwise (fun a b => lt b a = false)) :
    (stableInsert lt x l).Pairwise (fun a b => lt b a = false) := by
  induction l with
  | nil => simp [stableInsert]
  | cons y ys ih =>
    obtain ⟨hy, hys⟩ := List.pairwise_cons.mp h
    by_cases hxy : lt x y = true
    · simp only [stableInsert, hxy, if_true]
      refine List.pairwise_cons.mpr ⟨?_, h⟩
      intro b hb
      rcases List.mem_cons.mp hb with rfl | hb'
      · exact hasym x b hxy
      · cases hbx : lt b x with
        | false => rfl
        | true => exact absurd (htrans b x y hbx hxy) (by simp [hy b hb'])
    · simp only [stableInsert, hxy]
      rw [if_neg (by simp [hxy])]
      refine List.pairwise_cons.mpr ⟨?_, ih hys⟩
      intro b hb
      rcases (mem_stableInsert lt).mp hb with rfl | hb'
      · simpa using hxy
      · exact hy b hb'

lemma stableSort_go_pairwise (lt : α → α → Bool)
    (hasym : ∀ a b, lt a b = true → lt b a = false)
    (htrans : ∀ a b c, lt a b = true → lt b c = true → lt a c = true) :
    ∀ (l acc : List α), acc.Pairwise (fun a b => lt b a = false) →
      (l.foldl (fun acc x => stableInsert lt x acc) acc).Pairwise
        (fun a b => lt b a = false) := by
  intro l
  induction l with
  | nil => intro acc h; exact h
  | cons x xs ih =>
    intro acc h
    exact ih _ (stableInsert_pairwise lt hasym htrans x h)

/-- A stably sorted list has no inversion for `lt`. -/
lemma stableSort_pairwise (lt : α → α → Bool)
    (hasym : ∀ a b, lt a b = true → lt b a = false)
    (htrans : ∀ a b c, lt a b = true → lt b c = true → lt a c = true)
    (l : List α) :
    (stableSort lt l).Pairwise (fun a b => lt b a = false) :=
  stableSort_go_pairwise lt hasym htrans l [] (by simp)

lemma stableSort_go_perm (lt : α → α → Bool) :
    ∀ (l acc : List α),
      (l.foldl (fun acc x => stableInsert lt x acc) acc).Perm (acc ++ l) := by
  intro l
  induction l with
  | nil => intro acc; simp
  | cons x xs ih =>
    intro acc
    exact (ih (stableInsert lt x acc)).trans
      (((stableInsert_perm lt x acc).append_right xs).trans List.perm_middle.symm)

/-- The sort is a permutation of its input. -/
lemma stableSort_perm (lt : α → α → Bool) (l : List α) :
    (stableSort lt l).Perm l := by
  simpa using stableSort_go_perm lt l []

lemma sublist_stableSort_go (lt : α → α → Bool) :
    ∀ (l acc u : List α), u.Sublist acc →
      u.Sublist (l.foldl (fun acc x => stableInsert lt x acc) acc) := by
  intro l
  induction l with
  | nil => intro acc u h; exact h
  | cons x xs ih =>
    intro acc u h
    exact ih _ u (sublist_stableInsert lt x h)

/-- An element that nothing forces ahead of `x` stays ahead of it when `x`
is inserted into a sorted accumulator (`hneg` is negative transitivity: the
comparator derives from a total preorder on keys). -/
lemma stableInsert_pair_after (lt : α → α → Bool)
    (hneg : ∀ a b c, lt a b = false → lt b c = false → lt a c = false)
    (x : α) {l : List α} (hl : l.Pairwise (fun a b => lt b a = false))
    {a : α} (ha : a ∈ l) (hax : lt x a = false) :
    [a, x].Sublist (stableInsert lt x l) := by
  induction l with
  | nil => cases ha
  | cons y ys ih =>
    obtain ⟨hy, hys⟩ := List.pairwise_cons.mp hl
    by_cases hxy : lt x y = true
    · exfalso
      rcases List.mem_cons.mp ha with rfl | ha'
      · simp [hax] at hxy
      · have := hneg x a y hax (hy a ha')
        simp [this] at hxy
    · simp only [stableInsert, hxy]
      rw [if_neg (by simp [hxy])]
      rcases List.mem_cons.mp ha with rfl | ha'
      · exact List.cons_sublist_cons.mpr
          (List.singleton_sublist.mpr ((mem_stableInsert lt).mpr (Or.inl rfl)))
      · exact (ih hys ha').cons y

lemma stableSort_go_pair_mem (lt : α → α → Bool)
    (hasym : ∀ a b, lt a b = true → lt b a = false)
    (htrans : ∀ a b c, lt a b = true → lt b c = true → lt a c = true)
    (hneg : ∀ a b c, lt a b = false → lt b c = false → lt a c = false)
    (a b : α) :
    ∀ (l acc : List α), acc.Pairwise (fun u v => lt v u = false) →
      a ∈ acc → lt b a = false → b ∈ l →
      [a, b].Sublist (l.foldl (fun acc x => stableInsert lt x acc) acc) := by
  intro l
  induction l with
  | nil => intro acc _ _ _ hb; cases hb
  | cons y ys ih =>
    intro acc hacc ha hba hb
    rcases List.mem_cons.mp hb with rfl | hb'
    · exact sublist_stableSort_go lt ys _ _
        (stableInsert_pair_after lt hneg b hacc ha hba)
    · exact ih _ (stableInsert_pairwise lt hasym htrans y hacc)
        ((mem_stableInsert lt).mpr (Or.inr ha)) hba hb'

lemma stableSort_go_pair (lt : α → α → Bool)
    (hasym : ∀ a b, lt a b = true → lt b a = false)
    (htrans : ∀ a b c, lt a b = true → lt b c = true → lt a c = true)
    (hneg : ∀ a b c, lt a b = false → lt b c = false → lt a c = false)
    (a b : α) :
    ∀ (l acc : List α), acc.Pairwise (fun u v => lt v u = false) →
      [a, b].Sublist l → lt b a = false →
      [a, b].Sublist (l.foldl (fun acc x => stableInsert lt x acc) acc) := by
  intro l
  induction l with
  | nil => intro acc _ hab; intro _; cases hab
  | cons y ys ih =>
    intro acc hacc hab hba
    cases hab with
    | cons _ h =>
      exact ih _ (stableInsert_pairwise lt hasym htrans y hacc) h hba
    | cons₂ _ h =>
      exact stableSort_go_pair_mem lt hasym htrans hneg a b ys _
        (stableInsert_pairwise lt hasym htrans a hacc)
        ((mem_stableInsert lt).mpr (Or.inl rfl)) hba
        (List.singleton_sublist.mp h)

/-- Stability of the sort: a pair in input order whose second component has
no strictly smaller key stays in that order in the output; in particular
ties keep their first-encountered order. -/
lemma stableSort_pair (lt : α → α → Bool)
    (hasym : ∀ a b, lt a b = true → lt b a = false)
    (htrans : ∀ a b c, lt a b = true → lt b c = true → lt a c = true)
    (hneg : ∀ a b c, lt a b = false → lt b c = false → lt a c = false)
    {a b : α} {l : List α} (hab : [a, b].Sublist l) (hba : lt b a = false) :
    [a, b].Sublist (stableSort lt l) :=
  stableSort_go_pair lt hasym htrans hneg a b l [] (by simp) hab hba

/-! ### The aggregation engine's transaction rows and calendar helpers -/

/-- A normalized dashboard transaction as the owner-aware handler of
`pages/api/dashboard-summary.ts` builds it: a date (millisecond timestamp),
a numeric amount, the category (already defaulted to `"Uncategorized"`), the
grouping payee (`payee_norm || payee_clean || description || 'Unknown'`) and
the raw payee (`payee_clean || payee_norm || description || 'Unknown'`). -/
structure Tx where
  date : Int
  amount : ℚ
  category : String
  payee : String
  rawPayee : String
deriving DecidableEq, Repr, Inhabited

/-- First-occurrence key list: the iteration order of a JavaScript `Map`
built by repeated `set` calls (insertion order, first occurrence wins). -/
def dedupFirst [DecidableEq α] : List α → List α
  | [] => []
  | s :: rest => s :: dedupFirst (rest.filter (fun x => x ≠ s))
termination_by l => l.length
decreasing_by
  simp only [List.length_cons]
  exact Nat.lt_succ_of_le (List.length_filter_le _ _)

/-- `isoWeekStart` of the dashboard handlers, on the day scale: the epoch
day of the Monday starting the UTC week of a timestamp.  `getUTCDay` of
epoch day `d` is `(d + 4) % 7` (day 0 was a Thursday); the source subtracts
`(day + 6) % 7` days and truncates to midnight; the resulting ISO string is
injective in this day number, which therefore stands in for it. -/
def isoWeekStartDay (ms : Int) : Int :=
  ms / 86400000 - ((ms / 86400000 + 4) % 7 + 6) % 7

/-- `Math.round`, half up (floats never show round-half-to-even at the
scales involved). -/
def jsRound (q : ℚ) : Int :=
  ⌊q + 1 / 2⌋

/-- `Number(x.toFixed(2))`: round to two decimal places. -/
def round2 (q : ℚ) : ℚ :=
  (jsRound (q * 100) : ℚ) / 100

/-- Shifting a timestamp by whole weeks shifts its week-start day by 7 per
week. -/
lemma isoWeekStartDay_sub_weeks (t k : Int) :
    isoWeekStartDay (t - k * 604800000) = isoWeekStartDay t - 7 * k := by
  unfold isoWeekStartDay
  omega

/-- The 26 week-bucket keys (`for (let i = 0; i < 26; i++)` over
`isoWeekStart(now - i*7 days)`), in insertion order, newest first. -/
def weeklyKeys (now : Int) : List Int :=
  (List.range 26).map (fun i : Nat => isoWeekStartDay (now - (i : Int) * 604800000))

/-- `stableSort` of a strictly decreasing list is its reverse. -/
lemma stableSort_int_desc :
    ∀ l : List Int, l.Pairwise (fun a b => b < a) →
      stableSort (fun a b => decide (a < b)) l = l.reverse := by
  intro l
  induction l using List.reverseRecOn with
  | nil => intro _; rfl
  | append_singleton ys z ih =>
    intro h
    obtain ⟨hys, -, hz⟩ := List.pairwise_append.mp h
    have hzy : ∀ y ∈ ys, z < y := by
      intro y hy
      simpa using hz y hy z (by simp)
    show (ys ++ [z]).foldl (fun acc x => stableInsert (fun a b => decide (a < b)) x acc) [] = _
    rw [List.foldl_append]
    have : ys.foldl (fun acc x => stableInsert (fun a b => decide (a < b)) x acc) []
        = ys.reverse := ih hys
    rw [this]
    cases hrev : ys.reverse with
    | nil =>
      have hnil : ys = [] := by simpa using congrArg List.reverse hrev
      subst hnil
      simp [stableInsert]
    | cons w ws =>
      have hw : w ∈ ys := by
        rw [← List.mem_reverse, hrev]
        simp
      simp [stableInsert, hzy w hw, List.reverse_append, hrev]

/-- The sorted week keys (`Object.keys(weeklyBuckets).sort()`; ISO date
strings sort chronologically) are the 26 consecutive Mondays oldest first. -/
lemma weeklyKeys_sorted (now : Int) :
    stableSort (fun a b => decide (a < b)) (weeklyKeys now)
      = ((List.range 26).map (fun i : Nat => isoWeekStartDay now - 7 * (i : Int))).reverse := by
  have hkeys : weeklyKeys now
      = (List.range 26).map (fun i : Nat => isoWeekStartDay now - 7 * (i : Int)) := by
    apply List.map_congr_left
    intro i _
    simpa using isoWeekStartDay_sub_weeks now (i : Int)
  rw [hkeys]
  apply stableSort_int_desc
  exact List.Pairwise.map (fun i : Nat => isoWeekStartDay now - 7 * (i : Int))
    (fun a b h =>
      show isoWeekStartDay now - 7 * (b : Int) < isoWeekStartDay now - 7 * (a : Int) by
        have h2 : a < b := h
        omega)
    (List.pairwise_lt_range 26)

/-! ### Weekly series (spend variant and net variant) -/

/-- The spend a bucket accumulates in the owner-aware handler
(`weeklyBuckets[wk] += t.amount < 0 ? Math.abs(t.amount) : 0`): the sum of
the absolute values of the bucket's negative amounts. -/
def bucketSpend (txs : List Tx) (k : Int) : ℚ :=
  ((txs.filter (fun t => isoWeekStartDay t.date = k)).map
    (fun t => if t.amount < 0 then -t.amount else 0)).sum

/-- `weeklySeries26` of the owner-aware dashboard handler: 26 Monday-keyed
buckets for the trailing 26 weeks, sorted ascending, each holding the
two-decimal-rounded spend of its bucket. -/
def weeklySeries26 (now : Int) (txs : List Tx) : List (Int × ℚ) :=
  (stableSort (fun a b => decide (a < b)) (weeklyKeys now)).map
    (fun k => (k, round2 (bucketSpend txs k)))

/-- A row as the first `pages/api/dashboard-summary.ts` handler normalizes
it for its weekly chart: a date that may be missing (`date_parsed ||
created_at || null`) and a numeric amount (`safeNum`). -/
structure NRow where
  date : Option Int
  amount : ℚ
deriving DecidableEq, Repr

/-- The bucket key of a row in that handler: `isoWeekStart` of its date, or
of the current instant when the date is missing (`r.date ? new Date(r.date)
: new Date()`). -/
def nrowWeekKey (now : Int) (r : NRow) : Int :=
  isoWeekStartDay (match r.date with | some d => d | none => now)

/-- The net amount a bucket accumulates in that handler
(`weeklyBuckets[wk] += r.amount`): the signed sum, not the spend. -/
def bucketNet (now : Int) (rows : List NRow) (k : Int) : ℚ :=
  ((rows.filter (fun r => nrowWeekKey now r = k)).map (fun r => r.amount)).sum

/-- `weeklySeries26` of the first `pages/api/dashboard-summary.ts` handler:
the same 26 sorted Monday buckets, but each holding the signed net sum of
its bucket (`amount: Number(weeklyBuckets[k] || 0)`, no rounding). -/
def weeklySeriesNet (now : Int) (rows : List NRow) : List (Int × ℚ) :=
  (stableSort (fun a b => decide (a < b)) (weeklyKeys now)).map
    (fun k => (k, bucketNet now rows k))

/-- The 26 consecutive Mondays ending at the current week, oldest first. -/
def mondaysAsc (now : Int) : List Int :=
  ((List.range 26).map (fun i : Nat => isoWeekStartDay now - 7 * (i : Int))).reverse

lemma mondaysAsc_length (now : Int) : (mondaysAsc now).length = 26 := by
  unfold mondaysAsc
  rw [List.length_reverse, List.length_map, List.length_range]

/-- Closed form of the spend-variant weekly series: the 26 consecutive
Mondays ending at the current week, oldest first, each with its rounded
bucket spend. -/
lemma weeklySeries26_eq (now : Int) (txs : List Tx) :
    weeklySeries26 now txs
      = (mondaysAsc now).map (fun k => (k, round2 (bucketSpend txs k))) := by
  unfold weeklySeries26 mondaysAsc
  rw [weeklyKeys_sorted]

/-- Closed form of the net-variant weekly series. -/
lemma weeklySeriesNet_eq (now : Int) (rows : List NRow) :
    weeklySeriesNet now rows
      = (mondaysAsc now).map (fun k => (k, bucketNet now rows k)) := by
  unfold weeklySeriesNet mondaysAsc
  rw [weeklyKeys_sorted]

/-- The spend the claim's wording assigns to a bucket of the net-variant
handler.  Modelled from the spec: the sum of the absolute values of that
bucket's negative amounts only, for comparison with what the handler
actually reports. -/
def claimedBucketSpend (now : Int) (rows : List NRow) (k : Int) : ℚ :=
  ((rows.filter (fun r => nrowWeekKey now r = k && r.amount < 0)).map
    (fun r => -r.amount)).sum

/-- C5, counterexample.  Epoch day 4 (1970-01-05) is a Monday; a single
transaction of +100 dated that Monday lands in the newest bucket of the
first `pages/api/dashboard-summary.ts` handler's weekly series with amount
100, while the sum of the absolute values of the bucket's negative amounts
is 0: that variant reports net flow, not spend. -/
theorem weeklySeriesNet_reports_net_not_spend :
    (4, (100 : ℚ)) ∈ weeklySeriesNet (4 * 86400000) [⟨some (4 * 86400000), 100⟩]
    ∧ claimedBucketSpend (4 * 86400000) [⟨some (4 * 86400000), 100⟩] 4 = 0
    ∧ (100 : ℚ) ≠ 0 := by
  refine ⟨?_, by rfl, by norm_num⟩
  rw [weeklySeriesNet_eq]
  have hfil : List.filter (fun r => nrowWeekKey (4 * 86400000) r = 4)
      [(⟨some (4 * 86400000), 100⟩ : NRow)] = [⟨some (4 * 86400000), 100⟩] := by decide
  have hb : bucketNet (4 * 86400000) [⟨some (4 * 86400000), 100⟩] 4 = 100 := by
    unfold bucketNet
    rw [hfil]
    norm_num
  have h4 : (4 : Int) ∈ mondaysAsc (4 * 86400000) := by decide
  refine List.mem_map.mpr ⟨4, h4, ?_⟩
  show ((4 : Int), bucketNet (4 * 86400000) [⟨some (4 * 86400000), 100⟩] 4) = (4, (100 : ℚ))
  rw [hb]

/-- C5 as amended.  Both weekly-series variants return exactly 26 entries,
one per consecutive Monday-to-Sunday bucket ending at the current week,
oldest to newest, and a bucket with no matching transactions reports zero;
in the owner-aware handler each amount is the bucket's spend (sum of
absolute values of negative amounts) rounded to two decimals, while in the
first `pages/api/dashboard-summary.ts` handler each amount is the bucket's
signed net sum. -/
theorem weeklySeries_shape_and_amounts (now : Int) (txs : List Tx) (rows : List NRow) :
    weeklySeries26 now txs
      = (mondaysAsc now).map (fun k => (k, round2 (bucketSpend txs k)))
    ∧ (weeklySeries26 now txs).length = 26
    ∧ weeklySeriesNet now rows
      = (mondaysAsc now).map (fun k => (k, bucketNet now rows k))
    ∧ (weeklySeriesNet now rows).length = 26
    ∧ bucketSpend [] (isoWeekStartDay now) = 0
    ∧ round2 0 = 0 := by
  refine ⟨weeklySeries26_eq now txs, ?_, weeklySeriesNet_eq now rows, ?_, ?_, ?_⟩
  · rw [weeklySeries26_eq, List.length_map, mondaysAsc_length]
  · rw [weeklySeriesNet_eq, List.length_map, mondaysAsc_length]
  · rfl
  · norm_num [round2, jsRound]

/-! ### Top categories and top payees -/

/-- Group transactions by a key and sum the signed amounts per group, in
first-encountered key order (a JavaScript `Map` accumulated by `set`). -/
def groupSums (key : Tx → String) (txs : List Tx) : List (String × ℚ) :=
  (dedupFirst (txs.map key)).map
    (fun k => (k, ((txs.filter (fun t => key t = k)).map (fun t => t.amount)).sum))

/-- `amount: Number(amount.toFixed(2))` applied to one group entry. -/
def roundPair (p : String × ℚ) : String × ℚ :=
  (p.1, round2 p.2)

/-- The owner-aware handler's comparator `(a, b) => Math.abs(b.amount) -
Math.abs(a.amount)`: `a` strictly precedes `b` when its absolute amount is
larger. -/
def absDescLt (a b : String × ℚ) : Bool :=
  decide (|b.2| < |a.2|)

/-- The `topCategories`/`topPayees` computation of the owner-aware handler:
group, sum, round to two decimals, sort descending by absolute amount
(stable), take the first `n`. -/
def topBy (key : Tx → String) (n : Nat) (txs : List Tx) : List (String × ℚ) :=
  (stableSort absDescLt ((groupSums key txs).map roundPair)).take n

def topCategories (txs : List Tx) : List (String × ℚ) :=
  topBy (fun t => t.category) 5 txs

def topPayees (txs : List Tx) : List (String × ℚ) :=
  topBy (fun t => t.payee) 10 txs

/-- The dayjs-based handler's comparator `(a, b) => b.amount - a.amount`:
signed descending, not absolute. -/
def signedDescLt (a b : String × ℚ) : Bool :=
  decide (b.2 < a.2)

/-- `t.category || 'Uncategorized'` (dayjs-based handler). -/
def catKeyD (t : Tx) : String :=
  if t.category = "" then "Uncategorized" else t.category

/-- `t.payee_clean || 'Unknown'` (dayjs-based handler); the same defaulting
keys the recurring heuristic's `byPayee` map. -/
def payeeOrUnknown (t : Tx) : String :=
  if t.payee = "" then "Unknown" else t.payee

/-- `categories` of the dayjs-based handler: group by category, sum, round,
sort by signed amount descending, take the first 20. -/
def categoriesDayjs (txs : List Tx) : List (String × ℚ) :=
  (stableSort signedDescLt ((groupSums catKeyD txs).map roundPair)).take 20

/-- `payees` of the dayjs-based handler: as above by payee, take 50. -/
def payeesDayjs (txs : List Tx) : List (String × ℚ) :=
  (stableSort signedDescLt ((groupSums payeeOrUnknown txs).map roundPair)).take 50

lemma absDescLt_asymm : ∀ a b, absDescLt a b = true → absDescLt b a = false := by
  intro a b h
  simp only [absDescLt, decide_eq_true_eq] at h
  simp only [absDescLt, decide_eq_false_iff_not]
  exact not_lt_of_gt h

lemma absDescLt_trans :
    ∀ a b c, absDescLt a b = true → absDescLt b c = true → absDescLt a c = true := by
  intro a b c h1 h2
  simp only [absDescLt, decide_eq_true_eq] at h1 h2 ⊢
  exact h2.trans h1

lemma absDescLt_negtrans :
    ∀ a b c, absDescLt a b = false → absDescLt b c = false → absDescLt a c = false := by
  intro a b c h1 h2
  simp only [absDescLt, decide_eq_false_iff_not, not_lt] at h1 h2 ⊢
  exact h1.trans h2

/-- C6 as amended.  The owner-aware handler's top-N lists are the first
`n` entries (5 for categories, 10 for payees) of a stable sort of the
rounded group sums: the sorted list is a permutation of the group list, it
descends in absolute amount, and any two groups the comparator does not
separate - in particular ties in absolute amount - keep their
first-encountered input order.  (The dayjs-based handler instead sorts by
signed amount and takes 20/50; see the counterexample.) -/
theorem topBy_take_of_stable_absDesc (key : Tx → String) (n : Nat) (txs : List Tx) :
    topBy key n txs
      = (stableSort absDescLt ((groupSums key txs).map roundPair)).take n
    ∧ (stableSort absDescLt ((groupSums key txs).map roundPair)).Perm
        ((groupSums key txs).map roundPair)
    ∧ (stableSort absDescLt ((groupSums key txs).map roundPair)).Pairwise
        (fun a b => |b.2| ≤ |a.2|)
    ∧ (∀ a b : String × ℚ,
        [a, b].Sublist ((groupSums key txs).map roundPair) → |a.2| = |b.2| →
        [a, b].Sublist (stableSort absDescLt ((groupSums key txs).map roundPair)))
    ∧ topCategories txs = topBy (fun t => t.category) 5 txs
    ∧ topPayees txs = topBy (fun t => t.payee) 10 txs := by
  refine ⟨rfl, stableSort_perm _ _, ?_, ?_, rfl, rfl⟩
  · exact (stableSort_pairwise absDescLt absDescLt_asymm absDescLt_trans _).imp
      (fun h => by
        simp only [absDescLt, decide_eq_false_iff_not, not_lt] at h
        exact h)
  · intro a b hab htie
    exact stableSort_pair absDescLt absDescLt_asymm absDescLt_trans absDescLt_negtrans
      hab (by simp [absDescLt, htie])

/-- C6, counterexample, from the dayjs-based handler of the dashboard
summary: category A sums to -100 and category B to +50; sorting by absolute
value would put A first, but the handler's signed comparator puts B first
(and its list is cut at 20, not 5). -/
theorem categoriesDayjs_sorts_signed_not_abs :
    categoriesDayjs
        [⟨0, -100, "A", "pA", "rA"⟩, ⟨0, 50, "B", "pB", "rB"⟩]
      = [("B", 50), ("A", -100)]
    ∧ |(-100 : ℚ)| > |(50 : ℚ)| := by
  constructor
  · have hg : groupSums catKeyD
        [⟨0, -100, "A", "pA", "rA"⟩, ⟨0, 50, "B", "pB", "rB"⟩]
        = [("A", -100), ("B", 50)] := by
      simp [groupSums, dedupFirst, catKeyD]
    have hr : ([("A", (-100 : ℚ)), ("B", 50)]).map roundPair
        = [("A", -100), ("B", 50)] := by
      norm_num [roundPair, round2, jsRound]
    unfold categoriesDayjs
    rw [hg, hr]
    norm_num [stableSort, stableInsert, signedDescLt]
  · norm_num

/-! ### Recurring-payment detection (owner-aware handler heuristic) -/

inductive Freq where
  | weekly
  | monthly
  | unknown
deriving DecidableEq, Repr

/-- One detected (or precomputed) recurring payment.  Dates are optional
because a precomputed `recurring_summary` row may carry nulls; the
heuristic always fills them. -/
structure RecurringOut where
  payee : String
  avg_amount : ℚ
  frequency : Freq
  last_date : Option Int
  next_date : Option Int
  occurrences : Nat
deriving DecidableEq, Repr

/-- The transactions inside the trailing 90-day window
(`t.date >= Date.now() - 90*24*3600*1000`). -/
def windowTxs (now : Int) (txs : List Tx) : List Tx :=
  txs.filter (fun t => decide (now - 90 * 86400000 ≤ t.date))

/-- One payee's window group (`byPayee` entry), in input order. -/
def groupOf (now : Int) (txs : List Tx) (p : String) : List Tx :=
  (windowTxs now txs).filter (fun t => payeeOrUnknown t = p)

/-- `arr.slice().sort((a, b) => a.date.getTime() - b.date.getTime())`. -/
def sortByDateAsc (l : List Tx) : List Tx :=
  stableSort (fun a b => decide (a.date < b.date)) l

/-- The day gaps between consecutive occurrences
(`(sorted[i].date - sorted[i-1].date) / (1000*60*60*24)`). -/
def gapsDays : List Tx → List ℚ
  | a :: b :: rest => (((b.date - a.date : Int) : ℚ) / 86400000) :: gapsDays (b :: rest)
  | _ => []

/-- Arithmetic mean (`reduce((s, n) => s + n, 0) / length`). -/
def listMean (l : List ℚ) : ℚ :=
  l.sum / (l.length : ℚ)

/-- One payee's window group sorted by date. -/
def groupSorted (now : Int) (txs : List Tx) (p : String) : List Tx :=
  sortByDateAsc (groupOf now txs p)

/-- `avgInterval`: the mean day gap of one payee's sorted group. -/
def groupAvgGap (now : Int) (txs : List Tx) (p : String) : ℚ :=
  listMean (gapsDays (groupSorted now txs p))

/-- The population variance of the day gaps.  The source computes
`sd = Math.sqrt(variance)` and tests `sd <= 15`; since both sides are
nonnegative that test is exactly `variance <= 225`, which keeps the
embedding inside the rationals. -/
def groupGapVar (now : Int) (txs : List Tx) (p : String) : ℚ :=
  listMean ((gapsDays (groupSorted now txs p)).map
    (fun x => (x - groupAvgGap now txs p) ^ 2))

/-- The heuristic's verdict for one payee: `none` below 3 occurrences or
outside the `6 <= avgInterval <= 40` / `sd <= 15` acceptance box, else the
recurring record with `weekly` for `avgInterval <= 10` (`monthly`
otherwise), the rounded mean amount, the last date, and the last date plus
`Math.round(avgInterval)` days as next date. -/
def mkRecurring (now : Int) (txs : List Tx) (p : String) : Option RecurringOut :=
  if (groupOf now txs p).length < 3 then none
  else if 6 ≤ groupAvgGap now txs p ∧ groupAvgGap now txs p ≤ 40 ∧
      groupGapVar now txs p ≤ 225 then
    some
      { payee := p
        avg_amount := round2 (listMean ((groupSorted now txs p).map (fun t => t.amount)))
        frequency := if groupAvgGap now txs p ≤ 10 then Freq.weekly else Freq.monthly
        last_date := some ((groupSorted now txs p).getLastD default).date
        next_date := some (((groupSorted now txs p).getLastD default).date
          + 86400000 * jsRound (groupAvgGap now txs p))
        occurrences := (groupSorted now txs p).length }
  else none

/-- The fallback heuristic of the owner-aware handler (`detectRecurring` of
the spec): every payee group of the 90-day window, in first-encountered
order, filtered through `mkRecurring`. -/
def detectRecurring (now : Int) (txs : List Tx) : List RecurringOut :=
  (dedupFirst ((windowTxs now txs).map payeeOrUnknown)).filterMap (mkRecurring now txs)


/-! The first `pages/api/dashboard-summary.ts` handler carries its own
recurring heuristic with no interval-consistency filter: every payee with
at least 3 occurrences in the window is listed, and only the frequency
label is derived from the rounded mean gap. -/

/-- A recurring entry of that handler (`{payee, avg_amount, frequency,
last_date}`; no occurrence count, no next date - next dates are added later
by its `upcomingBills` with fixed 7/30/14-day offsets). -/
structure PagesRec where
  payee : String
  avg_amount : ℚ
  frequency : Freq
  last_date : Int
deriving DecidableEq, Repr

/-- Millisecond gaps between consecutive entries of a date list. -/
def gapsMs : List Int → List Int
  | a :: b :: rest => (b - a) :: gapsMs (b :: rest)
  | _ => []

/-- That handler's payee group inside the 90-day window (keys are the
already-defaulted `r.payee`). -/
def pagesGroup (now : Int) (txs : List Tx) (p : String) : List Tx :=
  (txs.filter (fun t => decide (now - 90 * 86400000 ≤ t.date))).filter (fun t => t.payee = p)

/-- Lexicographic comparison of character lists by code point, a proper
prefix ordered first - JavaScript's `<` on strings. -/
def lexLt : List Char → List Char → Bool
  | [], [] => false
  | [], _ :: _ => true
  | _ :: _, [] => false
  | a :: as, b :: bs => if a < b then true else if b < a then false else lexLt as bs

/-- `String(x)` for an integral number: its decimal numeral. -/
def jsNumStr (i : Int) : List Char :=
  if i < 0 then '-' :: Nat.toDigits 10 i.natAbs else Nat.toDigits 10 i.natAbs

/-- The comparator-less `Array.sort` order on numbers: JavaScript's default
sort converts each element with `String` and compares the strings. -/
def jsNumLt (a b : Int) : Bool := lexLt (jsNumStr a) (jsNumStr b)

/-- `arr.map(a => new Date(a.date).getTime()).sort()`.  The sort has no
comparator, so the timestamps are ordered lexicographically on their
decimal strings - which is numeric order only when all the strings have
equal width. -/
def pagesDatesSorted (now : Int) (txs : List Tx) (p : String) : List Int :=
  stableSort jsNumLt ((pagesGroup now txs p).map (fun t => t.date))

/-- `avgDeltaDays`: the rounded mean of consecutive millisecond gaps in
days, 0 for fewer than two dates.  The gaps follow the comparator-less
sort's order, so they can be negative when the timestamp strings have
unequal widths. -/
def pagesAvgDelta (now : Int) (txs : List Tx) (p : String) : Int :=
  let dates := pagesDatesSorted now txs p
  if 2 ≤ dates.length then
    jsRound ((((gapsMs dates).sum : Int) : ℚ) / (((dates.length - 1 : Nat) : Int) : ℚ) / 86400000)
  else 0

/-- The frequency label of that handler: `weekly` for a rounded mean gap in
`(0, 10]`, `monthly` in `(10, 40]`, `unknown` otherwise. -/
def pagesFreq (d : Int) : Freq :=
  if 0 < d ∧ d ≤ 10 then Freq.weekly
  else if 10 < d ∧ d ≤ 40 then Freq.monthly
  else Freq.unknown

/-- `arr.map(a => a.date).sort().reverse()[0]`: this second sort is over
the handler's ISO date strings, and lexicographic order on the equal-format
ISO strings is chronological order, so the model takes the numeric maximum
of the millisecond dates; `|| null` can fire only for an empty group,
unreachable under the three-occurrence guard (defaulted to 0). -/
def pagesLastDate (now : Int) (txs : List Tx) (p : String) : Int :=
  (stableSort (fun a b : Int => decide (a < b))
    ((pagesGroup now txs p).map (fun t => t.date))).reverse.headD 0

/-- The recurring list of the first `pages/api/dashboard-summary.ts`
handler: every window payee group of size at least 3, with mean amount
(unrounded), the frequency label and the latest date - no gap-deviation
test at all. -/
def mkPagesRec (now : Int) (txs : List Tx) (p : String) : Option PagesRec :=
  if (pagesGroup now txs p).length < 3 then none
  else some
    ⟨p, listMean ((pagesGroup now txs p).map (fun t => t.amount)),
     pagesFreq (pagesAvgDelta now txs p),
     pagesLastDate now txs p⟩

def recurringPages (now : Int) (txs : List Tx) : List PagesRec :=
  (dedupFirst ((txs.filter (fun t => decide (now - 90 * 86400000 ≤ t.date))).map
    (fun t => t.payee))).filterMap (mkPagesRec now txs)

/-- C2 as amended.  In the owner-aware handler's heuristic, a record in
`detectRecurring`'s output always comes from a payee group with at least 3
occurrences in the trailing 90-day window whose mean day gap lies in
`[6, 40]` and whose gap variance is at most `225` (that is, gap standard
deviation at most 15 days) - so there a group with only 2 occurrences, or
with gap deviation above 15 days, is never included - and the record is
classified `weekly` exactly when the mean gap is at most 10 (`monthly`
otherwise), reports the group's size, its last date, and a next date equal
to the last date plus `round(avgInterval)` days.  The first
`pages/api/dashboard-summary.ts` handler's own heuristic, by contrast,
lists every window group of size at least 3 with no gap filter at all: it
only attaches a frequency label (`weekly` for a rounded mean delta in
`(0, 10]` days, `monthly` in `(10, 40]`, otherwise `unknown`) computed
over the comparator-less - lexicographic - date sort, and the latest
date. -/
theorem detectRecurring_thresholds (now : Int) (txs : List Tx) (r : RecurringOut)
    (r2 : PagesRec) :
    (r ∈ detectRecurring now txs →
      3 ≤ (groupOf now txs r.payee).length
      ∧ r.occurrences = (groupOf now txs r.payee).length
      ∧ 6 ≤ groupAvgGap now txs r.payee
      ∧ groupAvgGap now txs r.payee ≤ 40
      ∧ groupGapVar now txs r.payee ≤ 225
      ∧ r.frequency
          = (if groupAvgGap now txs r.payee ≤ 10 then Freq.weekly else Freq.monthly)
      ∧ r.last_date = some ((groupSorted now txs r.payee).getLastD default).date
      ∧ r.next_date = some (((groupSorted now txs r.payee).getLastD default).date
          + 86400000 * jsRound (groupAvgGap now txs r.payee)))
    ∧ (r2 ∈ recurringPages now txs →
      3 ≤ (pagesGroup now txs r2.payee).length
      ∧ r2.avg_amount = listMean ((pagesGroup now txs r2.payee).map (fun t => t.amount))
      ∧ r2.frequency = pagesFreq (pagesAvgDelta now txs r2.payee)
      ∧ r2.last_date = pagesLastDate now txs r2.payee) := by
  constructor
  · intro h
    obtain ⟨p, -, hmk⟩ := List.mem_filterMap.mp h
    unfold mkRecurring at hmk
    by_cases h1 : (groupOf now txs p).length < 3
    · rw [if_pos h1] at hmk
      cases hmk
    rw [if_neg h1] at hmk
    by_cases h2 : 6 ≤ groupAvgGap now txs p ∧ groupAvgGap now txs p ≤ 40 ∧
        groupGapVar now txs p ≤ 225
    · rw [if_pos h2] at hmk
      injection hmk with hr
      subst hr
      dsimp only
      have hlen : (groupSorted now txs p).length = (groupOf now txs p).length :=
        (stableSort_perm _ _).length_eq
      exact ⟨by omega, hlen, h2.1, h2.2.1, h2.2.2, rfl, rfl, rfl⟩
    · rw [if_neg h2] at hmk
      cases hmk
  · intro h2
    obtain ⟨p, -, hmk⟩ := List.mem_filterMap.mp h2
    unfold mkPagesRec at hmk
    by_cases h1 : (pagesGroup now txs p).length < 3
    · rw [if_pos h1] at hmk
      cases hmk
    rw [if_neg h1] at hmk
    injection hmk with hr
    subst hr
    dsimp only
    exact ⟨by omega, rfl, rfl, rfl⟩

/-- Three NETFLIX transactions 30 days apart inside the 90-day window of
`now = 8640000000` ms (epoch day 100): dates are days 10, 40 and 70. -/
def recurDemo : List Tx :=
  [⟨864000000, -15, "Subscriptions", "NETFLIX", "NETFLIX"⟩,
   ⟨3456000000, -15, "Subscriptions", "NETFLIX", "NETFLIX"⟩,
   ⟨6048000000, -15, "Subscriptions", "NETFLIX", "NETFLIX"⟩]

/-- The record the heuristic produces for `recurDemo`: monthly, 3
occurrences, next date 30 days after the last. -/
def recurDemoOut : RecurringOut :=
  ⟨"NETFLIX", -15, Freq.monthly, some 6048000000, some 8640000000, 3⟩

lemma recurDemo_sorted : groupSorted 8640000000 recurDemo "NETFLIX" = recurDemo := rfl

lemma recurDemo_avgGap : groupAvgGap 8640000000 recurDemo "NETFLIX" = 30 := by
  unfold groupAvgGap
  rw [recurDemo_sorted]
  norm_num [recurDemo, gapsDays, listMean]

lemma recurDemo_gapVar : groupGapVar 8640000000 recurDemo "NETFLIX" = 0 := by
  unfold groupGapVar
  rw [recurDemo_sorted]
  simp only [recurDemo_avgGap]
  norm_num [recurDemo, gapsDays, listMean]

lemma recurDemo_group : groupOf 8640000000 recurDemo "NETFLIX" = recurDemo := rfl

lemma recurDemo_mk :
    mkRecurring 8640000000 recurDemo "NETFLIX" = some recurDemoOut := by
  unfold mkRecurring
  rw [if_neg (by rw [recurDemo_group]; norm_num [recurDemo])]
  rw [if_pos ⟨by rw [recurDemo_avgGap]; norm_num,
              by rw [recurDemo_avgGap]; norm_num,
              by rw [recurDemo_gapVar]; norm_num⟩]
  rw [recurDemo_sorted, recurDemo_avgGap]
  unfold recurDemoOut
  norm_num [recurDemo, listMean, round2, jsRound]

lemma recurDemo_detect :
    detectRecurring 8640000000 recurDemo = [recurDemoOut] := by
  unfold detectRecurring
  have hkeys : dedupFirst (List.map payeeOrUnknown (windowTxs 8640000000 recurDemo))
      = ["NETFLIX"] := by
    simp [windowTxs, recurDemo, payeeOrUnknown, dedupFirst]
  rw [hkeys]
  simp [recurDemo_mk]

/-- Witness for C2 at `recurDemo`: the detected record is monthly (mean gap
30 is over the weekly bound 10), has 3 occurrences, and its next date is
the last date plus `round(30)` days. -/
theorem detectRecurring_thresholds_witness :
    recurDemoOut.frequency
      = (if groupAvgGap 8640000000 recurDemo recurDemoOut.payee ≤ 10
          then Freq.weekly else Freq.monthly)
    ∧ 3 ≤ (groupOf 8640000000 recurDemo recurDemoOut.payee).length
    ∧ recurDemoOut.next_date
      = some (((groupSorted 8640000000 recurDemo recurDemoOut.payee).getLastD default).date
          + 86400000 * jsRound (groupAvgGap 8640000000 recurDemo recurDemoOut.payee)) := by
  have h := (detectRecurring_thresholds 8640000000 recurDemo recurDemoOut
      ⟨"", 0, Freq.unknown, 0⟩).1
    (by rw [recurDemo_detect]; exact List.mem_singleton.mpr rfl)
  exact ⟨h.2.2.2.2.2.1, h.1, h.2.2.2.2.2.2.2⟩



/-- A GYM payee with 3 occurrences at days 20, 30 and 80, all inside the
90-day window of `now` = day 100.  The three millisecond timestamps have
equal decimal width, so the comparator-less date sort is chronological
here.  Gaps of 10 and 50 days: mean 30 (inside `[6, 40]`), population
standard deviation 20 (variance 400, over the claimed 15-day bound). -/
def sdDemo : List Tx :=
  [⟨1728000000, -50, "Fitness", "GYM", "GYM"⟩,
   ⟨2592000000, -50, "Fitness", "GYM", "GYM"⟩,
   ⟨6912000000, -50, "Fitness", "GYM", "GYM"⟩]

lemma sdDemo_group : groupOf 8640000000 sdDemo "GYM" = sdDemo := rfl

lemma sdDemo_sorted : groupSorted 8640000000 sdDemo "GYM" = sdDemo := rfl

lemma sdDemo_avgGap : groupAvgGap 8640000000 sdDemo "GYM" = 30 := by
  unfold groupAvgGap
  rw [sdDemo_sorted]
  norm_num [sdDemo, gapsDays, listMean]

lemma sdDemo_gapVar : groupGapVar 8640000000 sdDemo "GYM" = 400 := by
  unfold groupGapVar
  rw [sdDemo_sorted]
  simp only [sdDemo_avgGap]
  norm_num [sdDemo, gapsDays, listMean]

lemma sdDemo_mkNone : mkRecurring 8640000000 sdDemo "GYM" = none := by
  unfold mkRecurring
  rw [if_neg (by rw [sdDemo_group]; norm_num [sdDemo])]
  rw [if_neg ?hcond]
  case hcond =>
    intro hc
    have := hc.2.2
    rw [sdDemo_gapVar] at this
    norm_num at this

lemma sdDemo_detect : detectRecurring 8640000000 sdDemo = [] := by
  unfold detectRecurring
  have hkeys : dedupFirst (List.map payeeOrUnknown (windowTxs 8640000000 sdDemo))
      = ["GYM"] := by
    simp [windowTxs, sdDemo, payeeOrUnknown, dedupFirst]
  rw [hkeys]
  simp [sdDemo_mkNone]

/-- When the timestamp strings have unequal widths the comparator-less
sort is not chronological: the 9-digit `864000000` sorts after the
10-digit values with a smaller leading digit. -/
lemma jsNumLt_sort_lexicographic :
    stableSort jsNumLt [864000000, 1728000000, 6048000000]
      = [1728000000, 6048000000, 864000000] := rfl

lemma sdDemo_pgroup : pagesGroup 8640000000 sdDemo "GYM" = sdDemo := rfl

lemma sdDemo_pdates :
    pagesDatesSorted 8640000000 sdDemo "GYM" = [1728000000, 2592000000, 6912000000] := rfl

lemma sdDemo_pdelta : pagesAvgDelta 8640000000 sdDemo "GYM" = 30 := by
  unfold pagesAvgDelta
  rw [sdDemo_pdates]
  norm_num [gapsMs, jsRound]

lemma sdDemo_plast : pagesLastDate 8640000000 sdDemo "GYM" = 6912000000 := rfl

lemma sdDemo_pmk :
    mkPagesRec 8640000000 sdDemo "GYM" = some ⟨"GYM", -50, Freq.monthly, 6912000000⟩ := by
  unfold mkPagesRec
  rw [if_neg (by rw [sdDemo_pgroup]; norm_num [sdDemo])]
  rw [sdDemo_pgroup, sdDemo_pdelta, sdDemo_plast]
  norm_num [sdDemo, listMean, pagesFreq]

lemma sdDemo_pages :
    recurringPages 8640000000 sdDemo = [⟨"GYM", -50, Freq.monthly, 6912000000⟩] := by
  unfold recurringPages
  have hkeys : dedupFirst ((sdDemo.filter
        (fun t => decide ((8640000000 : Int) - 90 * 86400000 ≤ t.date))).map
      (fun t => t.payee)) = ["GYM"] := by
    simp [sdDemo, dedupFirst]
  rw [hkeys]
  simp [sdDemo_pmk]

/-- C2, counterexample: the recurring heuristic of the first
`pages/api/dashboard-summary.ts` handler (a cited source) includes the GYM
group and labels it monthly, although its gap variance is 400 - a gap
standard deviation of 20 days, above the claimed 15-day bound at which a
group must never be included; the owner-aware handler's heuristic rejects
the same group. -/
theorem recurringPages_ignores_gap_deviation :
    recurringPages 8640000000 sdDemo = [⟨"GYM", -50, Freq.monthly, 6912000000⟩]
    ∧ groupGapVar 8640000000 sdDemo "GYM" = 400
    ∧ ¬((400 : ℚ) ≤ 225)
    ∧ detectRecurring 8640000000 sdDemo = [] :=
  ⟨sdDemo_pages, sdDemo_gapVar, by norm_num, sdDemo_detect⟩

/-! ### Header detection, classification order, payee cleanup claims -/

lemma findHeaderAux_spec (ls : List String) : ∀ k : Nat,
    (∀ i d cols, findHeaderAux k ls = some (i, d, cols) →
      k ≤ i ∧ ∃ l, ls[i - k]? = some l ∧ lineQualifies l = true
        ∧ d = detectDelimiter (jsTrim l)
        ∧ cols = (parseDelimitedLine (jsTrim l) (detectDelimiter (jsTrim l))).map norm
        ∧ ∀ j, j < i - k → ∀ l2, ls[j]? = some l2 → lineQualifies l2 = false)
    ∧ (findHeaderAux k ls = none ↔ ∀ l ∈ ls, lineQualifies l = false) := by
  induction ls with
  | nil =>
    intro k
    constructor
    · intro i d cols h
      simp [findHeaderAux] at h
    · simp [findHeaderAux]
  | cons l rest ih =>
    intro k
    by_cases hblank : jsTrim l = ""
    · have hstep : findHeaderAux k (l :: rest) = findHeaderAux (k + 1) rest := by
        simp [findHeaderAux, hblank]
      have hlq : lineQualifies l = false := by
        simp [lineQualifies, hblank]
      constructor
      · intro i d cols h
        rw [hstep] at h
        obtain ⟨hki, l0, hget, hq, hd, hc, hprev⟩ := (ih (k + 1)).1 i d cols h
        refine ⟨by omega, l0, ?_, hq, hd, hc, ?_⟩
        · have hik : i - k = (i - (k + 1)) + 1 := by omega
          rw [hik, List.getElem?_cons_succ]
          exact hget
        · intro j hj l2 hl2
          cases j with
          | zero =>
            rw [List.getElem?_cons_zero] at hl2
            cases hl2
            exact hlq
          | succ j2 =>
            rw [List.getElem?_cons_succ] at hl2
            exact hprev j2 (by omega) l2 hl2
      · rw [hstep, (ih (k + 1)).2]
        constructor
        · intro hall x hx
          rcases List.mem_cons.mp hx with rfl | hx2
          · exact hlq
          · exact hall x hx2
        · intro hall x hx
          exact hall x (List.mem_cons_of_mem l hx)
    · by_cases hall : requiredCols.all
          (fun r => ((parseDelimitedLine (jsTrim l) (detectDelimiter (jsTrim l))).map norm).contains r) = true
      · have hstep : findHeaderAux k (l :: rest)
            = some (k, detectDelimiter (jsTrim l),
                (parseDelimitedLine (jsTrim l) (detectDelimiter (jsTrim l))).map norm) := by
          simp only [findHeaderAux]
          rw [if_neg hblank, if_pos hall]
        have hlq : lineQualifies l = true := by
          simp only [lineQualifies]
          rw [Bool.and_eq_true]
          exact ⟨by simpa using hblank, hall⟩
        constructor
        · intro i d cols h
          rw [hstep] at h
          simp only [Option.some.injEq, Prod.mk.injEq] at h
          obtain ⟨hik, hdd, hcc⟩ := h
          subst hik
          refine ⟨le_refl k, l, ?_, hlq, hdd.symm, hcc.symm, ?_⟩
          · simp
          · intro j hj l2 hl2
            omega
        · rw [hstep]
          apply iff_of_false
          · simp
          · intro hall2
            have := hall2 l (List.mem_cons_self l rest)
            rw [hlq] at this
            cases this
      · have hallF : requiredCols.all
            (fun r => ((parseDelimitedLine (jsTrim l) (detectDelimiter (jsTrim l))).map norm).contains r) = false := by
          simpa using hall
        have hstep : findHeaderAux k (l :: rest) = findHeaderAux (k + 1) rest := by
          simp only [findHeaderAux]
          rw [if_neg hblank, if_neg hall]
        have hlq : lineQualifies l = false := by
          simp only [lineQualifies]
          rw [hallF, Bool.and_false]
        constructor
        · intro i d cols h
          rw [hstep] at h
          obtain ⟨hki, l0, hget, hq, hd, hc, hprev⟩ := (ih (k + 1)).1 i d cols h
          refine ⟨by omega, l0, ?_, hq, hd, hc, ?_⟩
          · have hik : i - k = (i - (k + 1)) + 1 := by omega
            rw [hik, List.getElem?_cons_succ]
            exact hget
          · intro j hj l2 hl2
            cases j with
            | zero =>
              rw [List.getElem?_cons_zero] at hl2
              cases hl2
              exact hlq
            | succ j2 =>
              rw [List.getElem?_cons_succ] at hl2
              exact hprev j2 (by omega) l2 hl2
        · rw [hstep, (ih (k + 1)).2]
          constructor
          · intro hall2 x hx
            rcases List.mem_cons.mp hx with rfl | hx2
            · exact hlq
            · exact hall2 x hx2
          · intro hall2 x hx
            exact hall2 x (List.mem_cons_of_mem l hx)

/-- C3.  When `findHeader` succeeds it returns the index of a line that
qualifies (non-blank, and its delimiter-split normalized columns contain
all four required names, in any order and regardless of extra columns),
together with that line's detected delimiter and normalized column list,
and every earlier line does not qualify; and `findHeader` returns `none` -
upon which the route fails the whole request - exactly when no line of the
input qualifies. -/
theorem findHeader_first_qualifying (lines : List String) :
    (∀ i d cols, findHeader lines = some (i, d, cols) →
      ∃ l, lines[i]? = some l ∧ lineQualifies l = true
        ∧ d = detectDelimiter (jsTrim l)
        ∧ cols = (parseDelimitedLine (jsTrim l) (detectDelimiter (jsTrim l))).map norm
        ∧ ∀ j, j < i → ∀ l2, lines[j]? = some l2 → lineQualifies l2 = false)
    ∧ (findHeader lines = none ↔ ∀ l ∈ lines, lineQualifies l = false) := by
  have h := findHeaderAux_spec lines 0
  constructor
  · intro i d cols hh
    obtain ⟨-, l0, hget, hq, hd, hc, hprev⟩ := h.1 i d cols hh
    refine ⟨l0, by simpa using hget, hq, hd, hc, ?_⟩
    intro j hj l2 hl2
    exact hprev j (by omega) l2 hl2
  · exact h.2

/-- Witness for C3: a statement whose header sits on line 2 (zero-based),
below a junk line and a blank line, with the four required columns in a
scrambled order plus an extra column; the two earlier lines do not
qualify. -/
theorem findHeader_first_qualifying_witness :
    ∃ l, (["junk line", "",
        "Transaction Amount\tDescription\tDate Posted\tTransaction Type\tExtra Col"] :
          List String)[2]? = some l
      ∧ lineQualifies l = true
      ∧ '\t' = detectDelimiter (jsTrim l)
      ∧ ["transaction amount", "description", "date posted", "transaction type", "extra col"]
          = (parseDelimitedLine (jsTrim l) (detectDelimiter (jsTrim l))).map norm
      ∧ ∀ j, j < 2 → ∀ l2,
          (["junk line", "",
            "Transaction Amount\tDescription\tDate Posted\tTransaction Type\tExtra Col"] :
              List String)[j]? = some l2 → lineQualifies l2 = false :=
  (findHeader_first_qualifying
    ["junk line", "",
     "Transaction Amount\tDescription\tDate Posted\tTransaction Type\tExtra Col"]).1
    2 '\t'
    ["transaction amount", "description", "date posted", "transaction type", "extra col"]
    (by decide)

lemma applyMapping_skip (desc : String) (rest : List MappingRow) :
    ∀ pre : List MappingRow, (∀ m2 ∈ pre, matchesPat desc m2 = false) →
      applyMapping desc (pre ++ rest) = applyMapping desc rest := by
  intro pre
  induction pre with
  | nil => intro _; rfl
  | cons m0 pre2 ih =>
    intro hpre
    have h0 : matchesPat desc m0 = false := hpre m0 (List.mem_cons_self m0 pre2)
    show applyMapping desc (m0 :: (pre2 ++ rest)) = applyMapping desc rest
    rw [applyMapping, if_neg (by simp [h0])]
    exact ih (fun m2 hm2 => hpre m2 (List.mem_cons_of_mem m0 hm2))

lemma ite_empty_default_ne (c : String) :
    (if c = "" then "Uncategorized" else c) ≠ "" := by
  by_cases h : c = "" <;> simp [h]

/-- C4.  `applyMapping` tries the mappings in their given order as
case-insensitive substring matches against the raw description: the first
match supplies the category (defaulted when empty) and its `normalized`
field, and the transform step then uses `normalized` as the payee exactly
when it is non-empty, keeping the generically cleaned description
otherwise; when no mapping matches, the category is `"Uncategorized"` and
the payee is the cleaned raw description. -/
theorem classify_first_match (desc : String) (pre post ms : List MappingRow) (m : MappingRow)
    (hpre : ∀ m2 ∈ pre, matchesPat desc m2 = false)
    (hm : matchesPat desc m = true)
    (hnone : ∀ m2 ∈ ms, matchesPat desc m2 = false) :
    applyMapping desc (pre ++ m :: post)
      = ((if m.category = "" then "Uncategorized" else m.category), m.normalized)
    ∧ classifyTx desc (pre ++ m :: post)
      = ((if m.category = "" then "Uncategorized" else m.category),
         (if m.normalized = "" then cleanPayee desc else m.normalized))
    ∧ applyMapping desc ms = ("Uncategorized", "")
    ∧ classifyTx desc ms = ("Uncategorized", cleanPayee desc) := by
  have h1 : applyMapping desc (pre ++ m :: post)
      = ((if m.category = "" then "Uncategorized" else m.category), m.normalized) := by
    rw [applyMapping_skip desc (m :: post) pre hpre]
    rw [applyMapping, if_pos hm]
  have h3 : applyMapping desc ms = ("Uncategorized", "") := by
    have := applyMapping_skip desc [] ms hnone
    rw [List.append_nil] at this
    rw [this]
    rfl
  refine ⟨h1, ?_, h3, ?_⟩
  · unfold classifyTx
    rw [h1]
    simp only [ite_empty_default_ne m.category, if_neg]
    rfl
  · unfold classifyTx
    rw [h3]
    rfl

/-- Witness for C4 at a concrete description and mapping table: the first
matching rule (second in the list) wins over a later, also-matching rule
and overrides the payee; an all-miss table yields `"Uncategorized"` and the
cleaned description. -/
theorem classify_first_match_witness :
    applyMapping "PAYPAL *NETFLIX SUBSCR"
        (⟨"spotify", "Spotify", "Music"⟩ ::
          (⟨"netflix", "Netflix", "Subscriptions"⟩ : MappingRow) ::
            [⟨"net", "", "Other"⟩])
      = ((if ("Subscriptions" : String) = "" then "Uncategorized" else "Subscriptions"),
         "Netflix")
    ∧ classifyTx "PAYPAL *NETFLIX SUBSCR"
        (⟨"spotify", "Spotify", "Music"⟩ ::
          (⟨"netflix", "Netflix", "Subscriptions"⟩ : MappingRow) ::
            [⟨"net", "", "Other"⟩])
      = ((if ("Subscriptions" : String) = "" then "Uncategorized" else "Subscriptions"),
         (if ("Netflix" : String) = "" then cleanPayee "PAYPAL *NETFLIX SUBSCR" else "Netflix"))
    ∧ applyMapping "PAYPAL *NETFLIX SUBSCR" [⟨"amazon", "", "Shopping"⟩]
      = ("Uncategorized", "")
    ∧ classifyTx "PAYPAL *NETFLIX SUBSCR" [⟨"amazon", "", "Shopping"⟩]
      = ("Uncategorized", cleanPayee "PAYPAL *NETFLIX SUBSCR") := by
  have h := classify_first_match "PAYPAL *NETFLIX SUBSCR"
    [⟨"spotify", "Spotify", "Music"⟩] [⟨"net", "", "Other"⟩]
    [⟨"amazon", "", "Shopping"⟩] ⟨"netflix", "Netflix", "Subscriptions"⟩
    (by decide) (by decide) (by decide)
  exact h

/-- C8, counterexample: a description that is nothing but a bracketed tag
cleans to the empty string, not to `"Unknown"` (only a blank input maps to
`"Unknown"`). -/
theorem cleanPayee_bracket_only_empty :
    cleanPayee "[DN]" = "" ∧ ("" : String) ≠ "Unknown" := by decide

/-- C8 as amended.  `cleanPayee` collapses internal whitespace, strips one
leading bracketed tag, trims, and truncates to 180 characters; it returns
`"Unknown"` exactly for inputs that are empty (or whitespace-only) before
cleanup, while an input that merely becomes empty during cleanup - such as
a lone bracketed tag - yields the empty string. -/
theorem cleanPayee_cleanup_spec (s : String) :
    (trimL s.toList = [] → cleanPayee s = "Unknown")
    ∧ (trimL s.toList ≠ [] →
        cleanPayee s
          = String.mk ((trimL (stripLeadBracket (collapseWsL (trimL s.toList)))).take 180))
    ∧ (trimL s.toList ≠ [] →
        trimL (stripLeadBracket (collapseWsL (trimL s.toList))) = [] →
        cleanPayee s = "")
    ∧ (cleanPayee s).toList.length ≤ 180 := by
  refine ⟨?_, ?_, ?_, ?_⟩
  · intro h
    unfold cleanPayee
    rw [if_pos h]
  · intro h
    unfold cleanPayee
    rw [if_neg h]
  · intro h h2
    unfold cleanPayee
    rw [if_neg h, h2]
    rfl
  · unfold cleanPayee
    by_cases h : trimL s.toList = []
    · rw [if_pos h]
      decide
    · rw [if_neg h]
      calc (String.mk ((trimL (stripLeadBracket (collapseWsL (trimL s.toList)))).take 180)).toList.length
          = ((trimL (stripLeadBracket (collapseWsL (trimL s.toList)))).take 180).length := rfl
        _ ≤ 180 := by
            rw [List.length_take]
            omega

/-- Witness for C8's amended statement at concrete inputs: a whitespace
description maps to `"Unknown"`, a tagged description is cleaned through
the pipeline, and a tag-only description empties out. -/
theorem cleanPayee_cleanup_spec_witness :
    cleanPayee "   " = "Unknown"
    ∧ cleanPayee " [DN]  COFFEE  SHOP "
      = String.mk ((trimL (stripLeadBracket (collapseWsL (trimL (" [DN]  COFFEE  SHOP " : String).toList)))).take 180)
    ∧ cleanPayee "[DN]" = "" := by
  refine ⟨(cleanPayee_cleanup_spec "   ").1 (by decide),
          (cleanPayee_cleanup_spec " [DN]  COFFEE  SHOP ").2.1 (by decide),
          (cleanPayee_cleanup_spec "[DN]").2.2.1 (by decide) (by decide)⟩

/-- C9.  With comma delimiter, a delimiter inside a double-quoted field
does not split, and a doubled quote inside a quoted field unescapes to a
literal quote. -/
theorem parseDelimitedLine_quoted_fields :
    parseDelimitedLine "A,\"B, and C\",D" ',' = ["A", "B, and C", "D"]
    ∧ parseDelimitedLine "\"He said \"\"hi\"\"\"" ',' = ["He said \"hi\""] := by
  decide

/-- C10.  An amount string that is non-empty after trimming but reduces to
the empty string once every `$` and `,` is stripped converts through
`Number("")` to 0, which is finite, so `parseAmount` returns 0 rather than
null. -/
theorem parseAmount_currency_only_is_zero (s : String)
    (h1 : trimL s.toList ≠ [])
    (h2 : (trimL s.toList).filter (fun c => !(c = '$' || c = ',')) = []) :
    parseAmount s = some 0 := by
  simp only [parseAmount]
  rw [if_neg h1, h2]
  rfl

/-- Witness for C10 at the concrete input `"$,"`. -/
theorem parseAmount_currency_only_is_zero_witness :
    parseAmount "$," = some 0 :=
  parseAmount_currency_only_is_zero "$," (by decide) (by decide)

/-! ### Error propagation of the two aggregation handlers (C7)

Each Supabase/PostgREST fetch a handler performs is modelled by an
`Except String` input: `Except.error` is a rejected fetch (the `restFetch`
helper throws on any non-OK response; the supabase client returns an
`error` field).  The handler bodies below reproduce the source's
propagation structure around the real aggregation computations defined
above. -/

/-- One savings scenario row (`weekly`, 12- and 26-week projections). -/
structure SavingsPlan where
  weekly : ℚ
  projection12 : ℚ
  projection26 : ℚ
deriving DecidableEq, Repr

/-- The owner-aware handler's response payload (sparklines and the
generated-at timestamp, which are presentation-only, are omitted). -/
structure PayloadA where
  currentBalance : ℚ
  weeklySeries : List (Int × ℚ)
  weeklyAvgSpend26 : ℚ
  monthlyNetFlow : ℚ
  topCategories : List (String × ℚ)
  topPayees : List (String × ℚ)
  recurring : List RecurringOut
  upcomingBills : List (String × ℚ × Option Int)
  unmappedPayees : List String
  methodNetFlow : Bool
  weeklyNetFlowValue : ℚ
  conservative : SavingsPlan
  moderate : SavingsPlan
  aggressive : SavingsPlan
deriving DecidableEq, Repr

/-- The empty payload the owner-aware handler returns when no transactions
are visible. -/
def emptyPayloadA : PayloadA :=
  ⟨0, [], 0, 0, [], [], [], [], [], false, 0, ⟨0, 0, 0⟩, ⟨0, 0, 0⟩, ⟨0, 0, 0⟩⟩

/-- The raw-payee key counted for mapping suggestions:
`((t.rawPayee || '').trim() || (t.payee || '')).trim()`. -/
def rawKey (t : Tx) : String :=
  jsTrim (if jsTrim t.rawPayee = "" then t.payee else jsTrim t.rawPayee)

/-- `unmappedPayees` of the owner-aware handler: count raw payees (empty
keys skipped), drop the ones whose key is a mapped `normalized` value, sort
by count descending (stable) and keep the top ten keys. -/
def unmappedPayees (txs : List Tx) (mappedSet : List String) : List String :=
  let keys := dedupFirst ((txs.map rawKey).filter (fun k => k ≠ ""))
  let counts := keys.map (fun k => (k, ((txs.map rawKey).filter (fun k2 => k2 = k)).length))
  ((stableSort (fun a b => decide (b.2 < a.2))
      (counts.filter (fun p => !mappedSet.contains p.1))).take 10).map (fun p => p.1)

/-- `weekly * pct` and its 12- and 26-week linear projections, all rounded
to two decimals (`makeProj`). -/
def makeProj (w : ℚ) : SavingsPlan :=
  ⟨w, round2 (w * 12), round2 (w * 26)⟩

/-- The owner-aware handler's aggregation over the fetched transactions,
mapped-normalized set and chosen recurring list. -/
def buildPayloadA (now : Int) (txs : List Tx) (mappedSet : List String)
    (recurring : List RecurringOut) : PayloadA :=
  let series := weeklySeries26 now txs
  let weeklyAvgSpend26 :=
    if 0 < series.length then ((series.map (fun w => w.2)).sum) / (series.length : ℚ) else 0
  let weeklyNetFlow :=
    ((txs.filter (fun t => decide (now - 7 * 86400000 ≤ t.date))).map (fun t => t.amount)).sum
  let baseWeekly := |if weeklyNetFlow ≠ 0 then weeklyNetFlow else -weeklyAvgSpend26|
  let weeklyNetFlowValue := round2 baseWeekly
  { currentBalance := round2 ((txs.map (fun t => t.amount)).sum)
    weeklySeries := series
    weeklyAvgSpend26 := round2 weeklyAvgSpend26
    monthlyNetFlow :=
      round2 (((txs.filter (fun t => decide (now - 30 * 86400000 ≤ t.date))).map
        (fun t => t.amount)).sum)
    topCategories := topCategories txs
    topPayees := topPayees txs
    recurring := recurring
    upcomingBills := recurring.map (fun r => (r.payee, r.avg_amount, r.next_date))
    unmappedPayees := unmappedPayees txs mappedSet
    methodNetFlow := weeklyNetFlow ≠ 0
    weeklyNetFlowValue := weeklyNetFlowValue
    conservative := makeProj (round2 (weeklyNetFlowValue * (5 / 100)))
    moderate := makeProj (round2 (weeklyNetFlowValue * (10 / 100)))
    aggressive := makeProj (round2 (weeklyNetFlowValue * (15 / 100))) }

/-- The owner-aware (`restFetch`) handler's outcome as a function of its
three fetches.  The transaction fetch is wrapped in `try/catch (return [])`,
so its failure degrades to an empty list (and hence the empty payload); the
`payee_mapping` fetch degrades to an empty mapped set; the
`recurring_summary` fetch degrades (on error or empty data) to the
heuristic.  No fetch outcome produces an error response. -/
def handlerRestOutcome (now : Int) (txF : Except String (List Tx))
    (mapF : Except String (List MappingRow)) (recF : Except String (List RecurringOut)) :
    Except String PayloadA :=
  let txs := match txF with | Except.ok r => r | Except.error _ => []
  if txs.length = 0 then Except.ok emptyPayloadA
  else
    let mappedSet :=
      match mapF with
      | Except.ok rows => rows.map (fun m => jsTrim m.normalized)
      | Except.error _ => []
    let recurring :=
      match recF with
      | Except.ok l => if 0 < l.length then l else detectRecurring now txs
      | Except.error _ => detectRecurring now txs
    Except.ok (buildPayloadA now txs mappedSet recurring)

/-- A precomputed recurring row as the dayjs-based handler shapes it. -/
structure RecD where
  payee : String
  avgAmount : ℚ
  occurrences : Nat
deriving DecidableEq, Repr

/-- A fallback recurring row of the dayjs-based handler. -/
structure FallbackRec where
  payee : String
  avgAmount : ℚ
  occurrences : Nat
  lastSeen : Int
deriving DecidableEq, Repr

/-- The fallback's grouping key: `payee.slice(0,120)` paired with
`Math.round(amount)` (the source's string key `payee::round`). -/
def fbKey (t : Tx) : String × Int :=
  ((payeeOrUnknown t).take 120, jsRound t.amount)

/-- The latest date of a group (`lastSeen` updated on strictly later
dates). -/
def lastSeenOf : List Tx → Int
  | [] => 0
  | g :: gs => gs.foldl (fun acc t => if acc < t.date then t.date else acc) g.date

/-- The dayjs-based handler's count-based fallback: group by
payee-and-rounded-amount, keep groups of at least 2, report the rounded
mean amount, the count and the latest date, sorted by count descending,
top 20. -/
def fallbackRecurring (relevant : List Tx) : List FallbackRec :=
  let keys := dedupFirst (relevant.map fbKey)
  let recs := keys.map (fun k =>
    let grp := relevant.filter (fun t => fbKey t = k)
    ({ payee := k.1
       avgAmount := round2 (((grp.map (fun t => t.amount)).sum) / (grp.length : ℚ))
       occurrences := grp.length
       lastSeen := lastSeenOf grp } : FallbackRec))
  (stableSort (fun a b => decide (b.occurrences < a.occurrences))
    (recs.filter (fun r => 2 ≤ r.occurrences))).take 20

/-- `startOf('week')` of dayjs' default (`en`) locale, Sunday-based, on the
day scale. -/
def sundayWeekStartDay (ms : Int) : Int :=
  ms / 86400000 - (ms / 86400000 + 4) % 7

/-- The dayjs-based handler's 26 week keys, pushed oldest first
(`for (let i = 25; i >= 0; i--)`).  The `YYYY-[W]WW` key format is
injective on week starts and is represented by the start day itself. -/
def weekKeysD (now : Int) : List Int :=
  (List.range 26).reverse.map (fun i : Nat => sundayWeekStartDay (now - (i : Int) * 604800000))

/-- The dayjs-based handler's weekly chart: signed net sum per bucket,
rounded. -/
def weeklyD (now : Int) (txs : List Tx) : List (Int × ℚ) :=
  (weekKeysD now).map (fun k =>
    (k, round2 (((txs.filter (fun t => sundayWeekStartDay t.date = k)).map
      (fun t => t.amount)).sum)))

/-- The dayjs-based handler's payload: tiles, weekly chart, categories
(top 20), payees (top 50, charted as 10), the recurring list (fetched shape
or fallback shape), unmapped suggestions and savings suggestions. -/
structure PayloadD where
  currentBalance : Option ℚ
  weeklyAvgSpend : ℚ
  monthlyNetFlow : ℚ
  weekly : List (Int × ℚ)
  categories : List (String × ℚ)
  payees : List (String × ℚ)
  recurring : Sum (List RecD) (List FallbackRec)
  topUnmapped : List String
  conservative : ℚ
  moderate : ℚ
  aggressive : ℚ
  projection12 : ℚ × ℚ × ℚ
deriving DecidableEq, Repr

/-- The dayjs-based handler's aggregation body. -/
def buildPayloadD (now : Int) (txs : List Tx)
    (recurring : Sum (List RecD) (List FallbackRec)) : PayloadD :=
  let weekly := weeklyD now txs
  let total := (weekly.map (fun w => w.2)).sum
  let weeksWithData :=
    if (weekly.filter (fun w => w.2 ≠ 0)).length = 0 then 26
    else (weekly.filter (fun w => w.2 ≠ 0)).length
  let weeklyAvgSpend := round2 (total / (weeksWithData : ℚ))
  let payees := payeesDayjs txs
  { currentBalance := none
    weeklyAvgSpend := weeklyAvgSpend
    monthlyNetFlow := round2 (total / 26 * (4345 / 1000))
    weekly := weekly
    categories := categoriesDayjs txs
    payees := payees
    recurring := recurring
    topUnmapped :=
      ((payees.filter (fun p =>
        p.1 ≠ "" && !containsSub ("Unknown".toList) p.1.toList)).take 10).map (fun p => p.1)
    conservative := round2 (weeklyAvgSpend * (5 / 100))
    moderate := round2 (weeklyAvgSpend * (10 / 100))
    aggressive := round2 (weeklyAvgSpend * (15 / 100))
    projection12 :=
      (round2 (weeklyAvgSpend * (5 / 100) * 12), round2 (weeklyAvgSpend * (10 / 100) * 12),
       round2 (weeklyAvgSpend * (15 / 100) * 12)) }

/-- The dayjs-based (supabase-client) handler's outcome as a function of
its fetches: a transaction-fetch error is fatal (`return res.status(500)`),
while a rejected or empty `recurring_summary` fetch falls back to the
count-based heuristic, whose own transaction re-fetch degrades to an empty
list on error (`.data || []`). -/
def handlerDayjsOutcome (now : Int) (txF : Except String (List Tx))
    (recF : Except String (List RecD)) (relF : Except String (List Tx)) :
    Except String PayloadD :=
  match txF with
  | Except.error _ => Except.error "Failed to fetch transactions"
  | Except.ok txs =>
    let relevant := match relF with | Except.ok r => r | Except.error _ => []
    let recurring : Sum (List RecD) (List FallbackRec) :=
      match recF with
      | Except.ok l =>
        if l.length = 0 then Sum.inr (fallbackRecurring relevant) else Sum.inl (l.take 30)
      | Except.error _ => Sum.inr (fallbackRecurring relevant)
    Except.ok (buildPayloadD now txs recurring)

/-- C7, counterexample: in the owner-aware (`restFetch`) handler - one of
the claim's cited sources - a failed primary transaction fetch is caught
and treated as an empty transaction list, and the request still returns a
summary (the empty payload) instead of failing. -/
theorem handlerRest_primary_failure_still_ok :
    handlerRestOutcome 0 (Except.error "fetch failed") (Except.ok []) (Except.ok [])
      = Except.ok emptyPayloadA := rfl

/-- C7 as amended.  Optional sub-input failures always degrade to the
empty sub-result: the mapping fetch and the recurring fetch in the
owner-aware handler, and the fallback's transaction re-fetch in the
dayjs-based handler, each behave as if they had returned nothing, while
the rest of the aggregation still succeeds.  A primary transaction-fetch
failure, however, is fatal only in the dayjs-based (supabase-client)
handler; the owner-aware (`restFetch`) handler catches it and still
returns an (empty) summary. -/
theorem aggregation_error_propagation (now : Int) (e : String) (txs : List Tx)
    (mapF : Except String (List MappingRow)) (recF : Except String (List RecurringOut))
    (recD : Except String (List RecD)) (relF : Except String (List Tx)) :
    handlerRestOutcome now (Except.error e) mapF recF
      = handlerRestOutcome now (Except.ok []) mapF recF
    ∧ handlerRestOutcome now (Except.ok txs) (Except.error e) recF
      = handlerRestOutcome now (Except.ok txs) (Except.ok []) recF
    ∧ handlerRestOutcome now (Except.ok txs) mapF (Except.error e)
      = handlerRestOutcome now (Except.ok txs) mapF (Except.ok [])
    ∧ handlerRestOutcome now (Except.error e) mapF recF = Except.ok emptyPayloadA
    ∧ handlerDayjsOutcome now (Except.error e) recD relF
      = Except.error "Failed to fetch transactions"
    ∧ (∃ p, handlerDayjsOutcome now (Except.ok txs) recD relF = Except.ok p)
    ∧ handlerDayjsOutcome now (Except.ok txs) recD (Except.error e)
      = handlerDayjsOutcome now (Except.ok txs) recD (Except.ok []) := by
  refine ⟨rfl, rfl, rfl, rfl, rfl, ?_, rfl⟩
  cases recD with
  | error e2 => exact ⟨_, rfl⟩
  | ok l => exact ⟨_, rfl⟩

end Budget
